import Mathlib

/-!
Verification of the process-lifecycle subsystem of an OS/161 kernel
(fork / exec / exit / waitpid, the `OPT_A2` code paths of
`proc_syscalls.c`).

The development shallowly embeds the syscall implementations as pure
Lean functions over an explicit kernel state.  Machine pointers become
natural-number addresses, user memory becomes a byte map
`Nat → Nat`, and the fallible C paths become `Except`-returning
functions with explicit failure-injection flags for the collaborator
operations (`kmalloc`, `as_copy`, `copyout`) whose success is decided
outside this subsystem.

Collaborator pieces that live elsewhere in the repository
(`proc_destroy`, the pid allocator, `copyinstr`, the `_MKWAIT_EXIT`
macro, condition-variable semantics) are modelled from the design
document's description of them; each such definition carries a doc
comment saying so.
-/

/-- Modelled from the spec: the error-code taxonomy of §7
(resource-exhaustion, invalid-argument, not-found, fault,
name-too-long).  The numeric values come from the kernel's `errno.h`,
which is not part of the analysed sources; only the distinctness of the
constants matters to any theorem below. -/
def ENOMEM : Nat := 3

/-- Modelled from the spec: invalid-argument error code. -/
def EINVAL : Nat := 8

/-- Modelled from the spec: not-found (no such process) error code. -/
def ESRCH : Nat := 18

/-- Modelled from the spec: string-too-long error code returned by the
bounded string copy-in. -/
def ENAMETOOLONG : Nat := 7

/-- Process status, per the data model: `Alive | Zombie` (a destroyed
record is deallocated, not a visible state). -/
inductive PStatus
  | Alive
  | Zombie
deriving DecidableEq

/-- Process record: the fields of `struct proc` that the analysed
syscalls read or write — `pid`, `status`, `exitcode`, the non-owning
`parent` back-reference and the ordered `children` collection.  Parent
and children are stored as pids; a record's identity is its pid. -/
structure Proc where
  pid : Nat
  status : PStatus
  exitcode : Int
  parent : Option Nat
  children : List Nat
deriving DecidableEq

/-- Kernel state: the live process records, plus the state of the
process-wide pid allocator (modelled from the spec, §9: a single
allocator handing out fresh ids). -/
structure Kernel where
  procs : List Proc
  nextPid : Nat
deriving DecidableEq

/-- Resolve a pid to its live record, if any (a destroyed record has no
entry). -/
def lookupProc (κ : Kernel) (p : Nat) : Option Proc :=
  κ.procs.find? (fun q => q.pid == p)

/-- Modelled from the spec: `proc_destroy` deallocates the record.  Per
§3 of the design, removal from a parent's `children` collection happens
only in `waitpid` or in the parent's own exit cleanup, never inside
`proc_destroy` itself, so destruction only deletes the record. -/
def removeProc (κ : Kernel) (p : Nat) : Kernel :=
  { κ with procs := κ.procs.filter (fun q => q.pid != p) }

/-- Update the record with pid `p` in place (the C code mutates the
record through a pointer; the pid field is never changed). -/
def mapProc (κ : Kernel) (p : Nat) (f : Proc → Proc) : Kernel :=
  { κ with procs := κ.procs.map (fun q => if q.pid == p then f q else q) }

/-- Modelled from the spec: `_MKWAIT_EXIT` from the kernel's `wait.h`
(not among the analysed sources).  Normal termination encodes the raw
exit code shifted left by two bits and tagged with the "exited"
tag, which is zero — hence multiplication by four. -/
def MKWAIT_EXIT (c : Int) : Int := 4 * c

/-- Failure-injection flags for the four fallible allocation steps of
`sys_fork`: `proc_create_runprogram` returning `NULL`, `array_add` on
the parent's children array failing, `as_copy` failing, and the
`kmalloc` of the trapframe copy returning `NULL`. -/
structure ForkFail where
  procAllocFail : Bool
  arrayAddFail : Bool
  asCopyFail : Bool
  tfAllocFail : Bool
deriving DecidableEq

/-- Shallow embedding of `sys_fork` (proc_syscalls.c).  The caller is
`curproc`.  Step for step:
`proc_create_runprogram` allocates a fresh record (fresh pid from the
allocator, `Alive`, no parent, no children) or fails with `ENOMEM`;
`array_add(parent->children, child)` registers the child or fails, in
which case the child is destroyed (`proc_destroy`) and the error
returned; `child->parent = parent`; `as_copy` failure and trapframe
`kmalloc` failure likewise call `proc_destroy(child)` and return —
the source performs no `array_remove`, so the failed child's entry is
left in the parent's `children` array.  On success the child's pid is
returned.  The lock acquire/release pairs of the source guard exactly
this sequence and have no effect in this sequential embedding. -/
def sys_fork (κ : Kernel) (caller : Nat) (ff : ForkFail) :
    Except Nat Nat × Kernel :=
  if ff.procAllocFail then (Except.error ENOMEM, κ)
  else
    let cpid := κ.nextPid
    let child : Proc := ⟨cpid, PStatus.Alive, 0, none, []⟩
    let κ1 : Kernel := ⟨κ.procs ++ [child], κ.nextPid + 1⟩
    if ff.arrayAddFail then (Except.error ENOMEM, removeProc κ1 cpid)
    else
      let κ2 := mapProc κ1 caller (fun q => { q with children := q.children ++ [cpid] })
      let κ3 := mapProc κ2 cpid (fun q => { q with parent := some caller })
      if ff.asCopyFail then (Except.error ENOMEM, removeProc κ3 cpid)
      else if ff.tfAllocFail then (Except.error ENOMEM, removeProc κ3 cpid)
      else (Except.ok cpid, κ3)

/-- Observable effect of `sys__exit` on the exiting record: either the
record was destroyed immediately, or it was turned into a zombie
carrying the exit code and `cv_broadcast` was performed on its
condition variable. -/
inductive ExitEffect
  | destroyed
  | zombifiedBroadcast
deriving DecidableEq

/-- Shallow embedding of the `OPT_A2` tail of `sys__exit`
(proc_syscalls.c, after the address-space teardown and
`proc_remthread`, neither of which touches the state modelled here).
The source reads `p->parent` and, when non-null, `p->parent->status`;
if the parent is absent or a zombie, `proc_destroy(p)`; otherwise,
under `p->p_Lock`, it sets `p->status = Zombie`, records
`p->exitcode = exitcode` and broadcasts on `p->p_cv`.  A dangling
`parent` pointer (parent record already destroyed) is undefined
behaviour in the C source; the embedding arbitrarily treats it like a
live non-zombie parent, and every theorem below hypothesises that the
parent's record exists when the parent link is set. -/
def sys__exit (κ : Kernel) (p : Nat) (exitcode : Int) : Kernel × ExitEffect :=
  match lookupProc κ p with
  | none => (κ, ExitEffect.destroyed)
  | some pr =>
    let parentGone :=
      match pr.parent with
      | none => true
      | some pp =>
        match lookupProc κ pp with
        | none => false
        | some ppr => ppr.status == PStatus.Zombie
    if parentGone then (removeProc κ p, ExitEffect.destroyed)
    else
      (mapProc κ p (fun q => { q with status := PStatus.Zombie, exitcode := exitcode }),
        ExitEffect.zombifiedBroadcast)

/-- The child-search loop of `sys_waitpid`: walk the caller's
`children` array in order and return the first record whose `pid`
field equals the requested pid.  A dangling entry (record already
destroyed — the C code would dereference freed memory) is skipped;
theorems about `sys_waitpid` hypothesise that every entry has a live
record. -/
def findChild (κ : Kernel) : List Nat → Nat → Option Proc
  | [], _ => none
  | c :: rest, pid =>
    match lookupProc κ c with
    | none => findChild κ rest pid
    | some r => if r.pid == pid then some r else findChild κ rest pid

/-- Result of one `sys_waitpid` call: the returned error code (`0` on
success), the value stored through `retval` if any, the word written
through the user `status` pointer if any, and whether the call blocked
in the `cv_wait` loop (the child was still `Alive`, so in this
sequential snapshot the call does not return). -/
structure WaitResult where
  err : Nat
  retval : Option Int
  statusOut : Option Int
  blocked : Bool
deriving DecidableEq

/-- Shallow embedding of `sys_waitpid` (proc_syscalls.c).  In source
order: nonzero `options` returns `EINVAL` at once; the caller's
`children` array is searched for the pid (`findChild`); no match sets
`*retval = -1` and returns `ESRCH`; a match that is still `Alive`
sleeps on the child's condition variable (`blocked := true` here);
otherwise `exitstatus = _MKWAIT_EXIT(child->exitcode)` is copied out —
a `copyout` fault (injected via `copyoutErr`) returns that error with
`*retval` unwritten — and on success `*retval = pid` with return
value `0`.  The source removes nothing from the `children` array and
destroys no record, so the kernel state is returned unchanged on every
path. -/
def sys_waitpid (κ : Kernel) (caller pid : Nat) (options : Int)
    (copyoutErr : Option Nat) : WaitResult × Kernel :=
  if options ≠ 0 then (⟨EINVAL, none, none, false⟩, κ)
  else
    match lookupProc κ caller with
    | none => (⟨0, none, none, false⟩, κ)
    | some P =>
      match findChild κ P.children pid with
      | none => (⟨ESRCH, some (-1), none, false⟩, κ)
      | some C =>
        if C.status = PStatus.Alive then (⟨0, none, none, true⟩, κ)
        else
          match copyoutErr with
          | some e => (⟨e, none, none, false⟩, κ)
          | none => (⟨0, some (pid : Int), some (MKWAIT_EXIT C.exitcode), false⟩, κ)

/-!
Interleaving model of the parent/child wakeup handshake.

Two kernel threads touch the same child record concurrently: the
parent inside `sys_waitpid`'s loop
(`lock_acquire(parent->p_Lock)`; `while (child->status == Alive)
cv_wait(child->p_cv, parent->p_Lock)`; read `child->exitcode`;
`lock_release`) and the exiting child inside `sys__exit`'s zombify
branch (`lock_acquire(p->p_Lock)` — the child's OWN lock; set
`status`/`exitcode`; `cv_broadcast(p->p_cv, p->parent->p_Lock)`;
`lock_release(p->p_Lock)`).  Each constructor below is one atomic
step of one thread; a schedule is the list of which thread moves.
The source's two stores `p->status = Zombie;` and
`p->exitcode = exitcode;` are two separate steps, exactly as they are
two separate statements in the C.  `cv_wait`'s release-and-sleep is a
single atomic step, and `cv_broadcast` (modelled from the spec: it
wakes every thread sleeping on the variable) moves a sleeping waiter
back to reacquiring the lock.  The child's steps never take the
parent's lock — exactly as in the source, where the whole
store-store-broadcast region holds only `p->p_Lock`, the child's own
lock, which the waiter never takes. -/

/-- Program counter of the waiting parent inside `sys_waitpid`'s
found-the-child region. -/
inductive WLoc
  | acq
  | check
  | callWait
  | sleeping
  | readSt
  | done
deriving DecidableEq

/-- Program counter of the exiting child inside `sys__exit`'s zombify
branch: lock acquisition, the `status` store, the `exitcode` store,
the broadcast, the lock release. -/
inductive ELoc
  | acq
  | setSt
  | setEx
  | bcast
  | rel
  | done
deriving DecidableEq

/-- Joint state of the two threads and the shared child record:
thread positions, the child's `status` and `exitcode` fields, the two
locks (`parent->p_Lock`, `child->p_Lock`), and the value the waiter
eventually returns (`None` while it has not returned). -/
structure CvState where
  wloc : WLoc
  eloc : ELoc
  childStatus : PStatus
  childExit : Int
  parentLockFree : Bool
  childLockFree : Bool
  wRet : Option Int
deriving DecidableEq

/-- One atomic step of the waiting parent.  `acq` takes the parent's
lock; `check` reads `child->status` under that lock and branches;
`callWait` is `cv_wait`'s atomic release-and-sleep; a sleeping thread
moves only when broadcast; `readSt` reads `child->exitcode`, computes
`_MKWAIT_EXIT` and releases the lock (compressed into one step — no
other thread reads the fields it writes). -/
def stepW (s : CvState) : CvState :=
  match s.wloc with
  | WLoc.acq =>
    if s.parentLockFree then { s with parentLockFree := false, wloc := WLoc.check } else s
  | WLoc.check =>
    if s.childStatus = PStatus.Alive then { s with wloc := WLoc.callWait }
    else { s with wloc := WLoc.readSt }
  | WLoc.callWait => { s with parentLockFree := true, wloc := WLoc.sleeping }
  | WLoc.sleeping => s
  | WLoc.readSt =>
    { s with wRet := some (MKWAIT_EXIT s.childExit), parentLockFree := true,
             wloc := WLoc.done }
  | WLoc.done => s

/-- One atomic step of the exiting child with exit code `c`.  `acq`
takes the CHILD's own lock (`lock_acquire(p->p_Lock)` in the source);
`setSt` is the store `p->status = Zombie;`; `setEx` is the separate
store `p->exitcode = exitcode;` — two distinct statements in the
source, and the waiter, serialized only by the parent's different
lock, can run between them; `bcast` is
`cv_broadcast(p->p_cv, p->parent->p_Lock)`, waking the waiter if it is
sleeping (the waiter then reacquires the parent lock and re-checks);
`rel` releases the child's lock. -/
def stepE (c : Int) (s : CvState) : CvState :=
  match s.eloc with
  | ELoc.acq =>
    if s.childLockFree then { s with childLockFree := false, eloc := ELoc.setSt } else s
  | ELoc.setSt =>
    { s with childStatus := PStatus.Zombie, eloc := ELoc.setEx }
  | ELoc.setEx =>
    { s with childExit := c, eloc := ELoc.bcast }
  | ELoc.bcast =>
    if s.wloc = WLoc.sleeping then { s with wloc := WLoc.acq, eloc := ELoc.rel }
    else { s with eloc := ELoc.rel }
  | ELoc.rel => { s with childLockFree := true, eloc := ELoc.done }
  | ELoc.done => s

/-- Run a schedule: `true` steps the waiting parent, `false` steps the
exiting child. -/
def runCv (c : Int) : List Bool → CvState → CvState
  | [], s => s
  | b :: rest, s => runCv c rest (if b then stepW s else stepE c s)

/-- Initial state: the parent has just found the child in its
`children` array and is about to take its lock; the child is entering
the zombify branch; the child record is still `Alive`. -/
def cvInit : CvState :=
  ⟨WLoc.acq, ELoc.acq, PStatus.Alive, 0, true, true, none⟩

/-- The schedule that loses the wakeup: the parent takes its lock and
sees the child `Alive`; the whole store-store-broadcast of the exiting
child then runs (it needs only the child's own lock, which is free);
the broadcast finds no sleeper; the parent then goes to sleep — with
nobody left to ever wake it. -/
def lostWakeupSched : List Bool :=
  [true, true, false, false, false, false, false, true]

/-- A schedule in which the parent goes to sleep before the child's
stores and broadcast: the broadcast then finds the sleeper, wakes it,
and the rechecking loop reads the zombie's exit code. -/
def wakeupObservedSched : List Bool :=
  [true, true, true, false, false, false, false, false, true, true, true]

/-- The schedule that tears the read: the exiting child takes its own
lock and performs the first store (`status = Zombie`) but not yet the
second (`exitcode`); the parent — serialized only by its own,
different lock — then runs its check, sees `Zombie`, and reads the
not-yet-written exit code. -/
def tornReadSched : List Bool :=
  [false, false, true, true, true]

/-!
User-memory model for `sys_execv`'s stack construction.

User memory is a byte map `Nat → Nat`; `copyoutstr` writes the bytes
of a string followed by its terminating zero, `copyout` of a pointer
writes four little-endian bytes (32-bit MIPS pointers).  Addresses are
natural numbers; the code's `userptr_t` arithmetic never underflows in
the states the theorems quantify over (the stack top is far above the
handful of kilobytes the arguments occupy), which the room hypotheses
make explicit. -/

/-- User memory: a byte at every address. -/
def Mem : Type := Nat → Nat

/-- Memory with every byte zero, used as the arbitrary initial
contents of the freshly created stack region. -/
def mem0 : Mem := fun _ => 0

/-- Write one byte. -/
def mupd (m : Mem) (a v : Nat) : Mem := fun x => if x = a then v else m x

/-- Write a run of bytes at consecutive addresses starting at `a`. -/
def writeBytes (m : Mem) (a : Nat) : List Nat → Mem
  | [] => m
  | b :: rest => writeBytes (mupd m a b) (a + 1) rest

/-- The effect of `copyoutstr`: the string's bytes plus the
terminating zero. -/
def writeStr (m : Mem) (a : Nat) (s : List Nat) : Mem :=
  writeBytes m a (s ++ [0])

/-- The effect of `copyout(&ptr, addr, 4)`: four little-endian bytes
of a 32-bit value. -/
def writeWord (m : Mem) (a v : Nat) : Mem :=
  writeBytes m a [v % 256, v / 256 % 256, v / 65536 % 256, v / 16777216 % 256]

/-- Read back a 32-bit little-endian word. -/
def readWord (m : Mem) (a : Nat) : Nat :=
  m a + 256 * m (a + 1) + 65536 * m (a + 2) + 16777216 * m (a + 3)

/-- Read back a zero-terminated string (at most `fuel` bytes). -/
def readCStr (m : Mem) (a : Nat) : Nat → List Nat
  | 0 => []
  | fuel + 1 => if m a = 0 then [] else m a :: readCStr m (a + 1) fuel

/-- Bytes a record occupies when holding the zero-terminated string
`s` at address `a`. -/
def memHasStr (m : Mem) (a : Nat) (s : List Nat) : Prop :=
  (∀ i, i < s.length → m (a + i) = s.getD i 0) ∧ m (a + s.length) = 0

/-- The `ROUNDUP` macro of the kernel's `lib.h` for a positive `size`:
round `a` up to the next multiple of `size`. -/
def ROUNDUP (a size : Nat) : Nat := ((a + size - 1) / size) * size

/-- The argument-string loop of `sys_execv` (the first `for` over
`argv`): each string is placed `strlen(arg) + 1` bytes below the
current stack top, written there with `copyoutstr`, and its address
recorded (the source collects them in the `stackptrs` array).
Returns the final memory, the final stack top and the recorded
addresses in argument order. -/
def pushArgs (m : Mem) (top : Nat) : List (List Nat) → Mem × Nat × List Nat
  | [] => (m, top, [])
  | s :: rest =>
    let a := top - (s.length + 1)
    let m1 := writeStr m a s
    let r := pushArgs m1 a rest
    (r.1, r.2.1, a :: r.2.2)

/-- The pointer loop of `sys_execv` (the second `for`): the recorded
string addresses are copied out as consecutive 32-bit words starting
at the pointer-vector base, followed by one `NULL` word. -/
def writePtrs (m : Mem) (a : Nat) : List Nat → Mem
  | [] => writeWord m a 0
  | p :: rest => writePtrs (writeWord m a p) (a + 4) rest

/-- Outcome of a successful `sys_execv` image setup: the values handed
to `enter_new_process(argc, top, (vaddr_t)top, entrypoint)` — the
argument count, the pointer-vector address and the stack pointer (the
source passes `top` for both) — plus the constructed user memory. -/
structure ExecResult where
  argc : Nat
  argvBase : Nat
  stackPtr : Nat
  mem : Mem

/-- The stack-construction tail of `sys_execv` (lines after
`as_define_stack`): push the argument strings, then compute the
pointer-vector base exactly as the source does —
`stacktop = ROUNDUP(stacktop, 8) - 16` followed by
`stacktop -= 8 * ROUNDUP(argc + 2, 2)` — then write the pointer
vector and its `NULL` terminator, and hand `argc` and the vector base
(also used as the stack pointer) to the new image. -/
def buildStack (m : Mem) (stackptr : Nat) (args : List (List Nat)) : ExecResult :=
  let r := pushArgs m stackptr args
  let base := ROUNDUP r.2.1 8 - 16 - 8 * ROUNDUP (args.length + 2) 2
  ⟨args.length, base, base, writePtrs r.1 base r.2.2⟩

/-- The pointer-vector base as the specification's words describe it,
with 4-byte (32-bit) pointer slots: "rounds the pointer-vector base
down to 8-byte alignment and reserves space for `argc + 1` pointers
padded to an even count".  Written for comparison against the
source-derived `buildStack`; not part of the code embedding. -/
def specVectorBase (strTop argc : Nat) : Nat :=
  (strTop / 8) * 8 - 4 * ROUNDUP (argc + 1) 2

/-- The same spec-following base under the alternative reading that a
pointer slot is given 8 bytes.  Also written only for comparison with
the source-derived computation. -/
def specVectorBase8 (strTop argc : Nat) : Nat :=
  (strTop / 8) * 8 - 8 * ROUNDUP (argc + 1) 2

/-- Total bytes the argument strings occupy on the stack (each string
plus its terminating zero). -/
def totalSize : List (List Nat) → Nat
  | [] => 0
  | s :: rest => s.length + 1 + totalSize rest

/-- Well-formed argument list as produced by the copy-in phase: each
string fits the 128-byte staging buffer and consists of nonzero bytes
(the copy-in stops at the first zero). -/
def GoodArgs (args : List (List Nat)) : Prop :=
  ∀ s ∈ args, s.length + 1 ≤ 128 ∧ ∀ b ∈ s, 0 < b ∧ b < 256

/-- Observable stages of `sys_execv`, in source order, for stating
where a failure cuts the sequence off.  `asReplace` is the
`curproc_setas(as)` call that installs the new address space. -/
inductive ExecAction
  | copyInPath
  | copyInArgs
  | vfsOpenFile
  | asCreateNew
  | asReplace
  | loadExecutable
  | defineStack
  | stackBuild
  | asDestroyOld
  | enterNew
deriving DecidableEq

/-- Modelled from the spec: `copyinstr` (§6, `copy_in_string`) copies
a user string into a kernel buffer of the given size and fails when
the string including its terminator does not fit. -/
def copyinstr (s : List Nat) (maxlen : Nat) : Except Nat (List Nat) :=
  if s.length + 1 ≤ maxlen then Except.ok s else Except.error ENAMETOOLONG

/-- The argument copy-in loop of `sys_execv`: each argument string is
staged through `copyinstr` into a fresh 128-byte kernel buffer, in
order, stopping at the `NULL` vector entry (the end of the list
here); the first failure aborts the call with that error. -/
def copyArgs : List (List Nat) → Except Nat (List (List Nat))
  | [] => Except.ok []
  | a :: rest =>
    match copyinstr a 128 with
    | Except.error e => Except.error e
    | Except.ok s =>
      match copyArgs rest with
      | Except.error e => Except.error e
      | Except.ok ss => Except.ok (s :: ss)

/-- Shallow embedding of `sys_execv` at the granularity of its
stages: the program path is staged through `copyinstr` into a
128-byte buffer; the argument vector is staged likewise; only then do
`vfs_open`, `as_create`, the `curproc_setas` address-space
replacement, `load_elf`, `as_define_stack`, the stack construction,
the old-space destruction and `enter_new_process` run (their
collaborator failures are not modelled — the claims below concern the
copy-in phase and the stack layout).  The second component records
which stages ran. -/
def sys_execv (prog : List Nat) (args : List (List Nat)) (stackptr : Nat) :
    Except Nat ExecResult × List ExecAction :=
  match copyinstr prog 128 with
  | Except.error e => (Except.error e, [ExecAction.copyInPath])
  | Except.ok _ =>
    match copyArgs args with
    | Except.error e => (Except.error e, [ExecAction.copyInPath, ExecAction.copyInArgs])
    | Except.ok ss =>
      (Except.ok (buildStack mem0 stackptr ss),
        [ExecAction.copyInPath, ExecAction.copyInArgs, ExecAction.vfsOpenFile,
         ExecAction.asCreateNew, ExecAction.asReplace, ExecAction.loadExecutable,
         ExecAction.defineStack, ExecAction.stackBuild, ExecAction.asDestroyOld,
         ExecAction.enterNew])

/-- The spec's concrete exec scenario,
`exec("/bin/prog", ["/bin/prog", "arg1", NULL])`: the two argument
strings as byte lists (ASCII `/bin/prog` and `arg1`), the `NULL`
vector terminator being the end of the list. -/
def demoArgs : List (List Nat) :=
  [[47, 98, 105, 110, 47, 112, 114, 111, 103], [97, 114, 103, 49]]

/-!
Lemmas about process lookup and the waitpid child search.
-/

/-- A successful lookup returns a record whose pid field is the
looked-up pid. -/
theorem lookupProc_pid_eq {κ : Kernel} {p : Nat} {r : Proc}
    (h : lookupProc κ p = some r) : r.pid = p := by
  unfold lookupProc at h
  have := List.find?_some h
  simpa using this

/-- The child-search loop finds the looked-up record whenever the pid
occurs in the children list. -/
theorem findChild_some_of_mem {κ : Kernel} {pid : Nat} {C : Proc} :
    ∀ {l : List Nat}, pid ∈ l → lookupProc κ pid = some C →
      findChild κ l pid = some C := by
  intro l
  induction l with
  | nil => intro hmem; cases hmem
  | cons c rest ih =>
    intro hmem hC
    by_cases hc : c = pid
    · subst hc
      unfold findChild
      rw [hC]
      simp [lookupProc_pid_eq hC]
    · have hmem' : pid ∈ rest := by
        cases hmem with
        | head => exact absurd rfl hc
        | tail _ h => exact h
      cases hl : lookupProc κ c with
      | none =>
        simp only [findChild, hl]
        exact ih hmem' hC
      | some r =>
        have hr : r.pid = c := lookupProc_pid_eq hl
        have hne : (r.pid == pid) = false := by
          simp [hr]
          exact hc
        simp only [findChild, hl, hne, Bool.false_eq_true, if_false]
        exact ih hmem' hC

/-- The child-search loop fails when no entry of the children list
resolves to a record carrying the requested pid. -/
theorem findChild_eq_none (κ : Kernel) (pid : Nat) :
    ∀ l : List Nat, (∀ c ∈ l, ∀ r, lookupProc κ c = some r → r.pid ≠ pid) →
      findChild κ l pid = none := by
  intro l
  induction l with
  | nil => intro _; rfl
  | cons c rest ih =>
    intro hno
    cases hl : lookupProc κ c with
    | none =>
      simp only [findChild, hl]
      exact ih fun d hd r hr => hno d (List.mem_cons_of_mem c hd) r hr
    | some r =>
      have hne : (r.pid == pid) = false := by
        simp
        exact hno c (List.mem_cons_self c rest) r hl
      simp only [findChild, hl, hne, Bool.false_eq_true, if_false]
      exact ih fun d hd rr hrr => hno d (List.mem_cons_of_mem c hd) rr hrr

/-- Destroying a record removes it from lookup. -/
theorem lookupProc_removeProc_self (κ : Kernel) (p : Nat) :
    lookupProc (removeProc κ p) p = none := by
  unfold lookupProc removeProc
  simp only [List.find?_eq_none]
  intro q hq
  have := (List.mem_filter.mp hq).2
  simp at this ⊢
  exact this

/-- Updating a record in place (pid preserved) updates what lookup
returns. -/
theorem find?_pid_map_update (p : Nat) (f : Proc → Proc)
    (hf : ∀ q, (f q).pid = q.pid) :
    ∀ l : List Proc,
      (l.map (fun q => if q.pid == p then f q else q)).find? (fun q => q.pid == p) =
        Option.map f (l.find? (fun q => q.pid == p)) := by
  intro l
  induction l with
  | nil => rfl
  | cons q rest ih =>
    by_cases hq : q.pid = p
    · rw [List.map_cons, if_pos (by simpa using hq),
        List.find?_cons_of_pos _ (by simp [hf, hq]),
        List.find?_cons_of_pos _ (by simp [hq])]
      rfl
    · rw [List.map_cons, if_neg (by simpa using hq),
        List.find?_cons_of_neg _ (by simpa using hq),
        List.find?_cons_of_neg _ (by simpa using hq)]
      exact ih

/-- Updating a record in place (pid preserved) updates what lookup
returns. -/
theorem lookupProc_mapProc_self (κ : Kernel) (p : Nat) (f : Proc → Proc)
    (hf : ∀ q, (f q).pid = q.pid) :
    lookupProc (mapProc κ p f) p = Option.map f (lookupProc κ p) := by
  unfold lookupProc mapProc
  exact find?_pid_map_update p f hf κ.procs

/-- C7: a `waitpid` call with nonzero `options` fails with `EINVAL`
regardless of any child's state, before the children search, writing
neither `*retval` nor the status word and leaving the kernel state
untouched. -/
theorem waitpid_nonzero_options_einval (κ : Kernel) (caller pid : Nat)
    (options : Int) (ce : Option Nat) (h : options ≠ 0) :
    sys_waitpid κ caller pid options ce = (⟨EINVAL, none, none, false⟩, κ) := by
  simp [sys_waitpid, h]

/-- Witness for C7 at a concrete state: a caller with a zombie child
still gets `EINVAL` when passing `options = 1`. -/
theorem waitpid_nonzero_options_einval_witness :
    (1 : Int) ≠ 0 ∧
      sys_waitpid ⟨[⟨1, PStatus.Alive, 0, none, [2]⟩,
          ⟨2, PStatus.Zombie, 5, some 1, []⟩], 3⟩ 1 2 1 none =
        (⟨EINVAL, none, none, false⟩,
          ⟨[⟨1, PStatus.Alive, 0, none, [2]⟩,
            ⟨2, PStatus.Zombie, 5, some 1, []⟩], 3⟩) :=
  ⟨by decide,
    waitpid_nonzero_options_einval
      ⟨[⟨1, PStatus.Alive, 0, none, [2]⟩, ⟨2, PStatus.Zombie, 5, some 1, []⟩], 3⟩
      1 2 1 none (by decide)⟩

/-- C8: when no entry of the caller's `children` collection resolves
to a record carrying the requested pid, `waitpid` fails immediately
with `ESRCH` — no blocking (`blocked = false`), `*retval = -1`, no
status write, kernel state untouched. -/
theorem waitpid_unknown_pid_esrch (κ : Kernel) (caller pid : Nat)
    (ce : Option Nat) (P : Proc) (hP : lookupProc κ caller = some P)
    (hno : ∀ c ∈ P.children, ∀ r, lookupProc κ c = some r → r.pid ≠ pid) :
    sys_waitpid κ caller pid 0 ce = (⟨ESRCH, some (-1), none, false⟩, κ) := by
  have hfc := findChild_eq_none κ pid P.children hno
  simp [sys_waitpid, hP, hfc]

/-- Witness for C8: pid `7` was never forked by process `1`, whose
only child is `2`; the call fails `ESRCH` without blocking. -/
theorem waitpid_unknown_pid_esrch_witness :
    sys_waitpid ⟨[⟨1, PStatus.Alive, 0, none, [2]⟩,
        ⟨2, PStatus.Zombie, 5, some 1, []⟩], 3⟩ 1 7 0 none =
      (⟨ESRCH, some (-1), none, false⟩,
        ⟨[⟨1, PStatus.Alive, 0, none, [2]⟩,
          ⟨2, PStatus.Zombie, 5, some 1, []⟩], 3⟩) :=
  waitpid_unknown_pid_esrch
    ⟨[⟨1, PStatus.Alive, 0, none, [2]⟩, ⟨2, PStatus.Zombie, 5, some 1, []⟩], 3⟩
    1 7 none ⟨1, PStatus.Alive, 0, none, [2]⟩ (by decide) (by decide)

/-- C9: when the awaited child is already a zombie and the `copyout`
of the encoded status to the user-supplied location faults with `e`,
`waitpid` returns `e` and leaves `*retval` unwritten (and writes no
status word). -/
theorem waitpid_copyout_fault (κ : Kernel) (caller pid : Nat) (e : Nat)
    (P C : Proc) (hP : lookupProc κ caller = some P) (hmem : pid ∈ P.children)
    (hC : lookupProc κ pid = some C) (hz : C.status = PStatus.Zombie) :
    sys_waitpid κ caller pid 0 (some e) = (⟨e, none, none, false⟩, κ) := by
  have hfc := findChild_some_of_mem hmem hC
  simp [sys_waitpid, hP, hfc, hz]

/-- Witness for C9: the status pointer faults (`copyout` returns error
code `6`); `waitpid` on zombie child `2` returns `6` with `*retval`
unwritten. -/
theorem waitpid_copyout_fault_witness :
    sys_waitpid ⟨[⟨1, PStatus.Alive, 0, none, [2]⟩,
        ⟨2, PStatus.Zombie, 5, some 1, []⟩], 3⟩ 1 2 0 (some 6) =
      (⟨6, none, none, false⟩,
        ⟨[⟨1, PStatus.Alive, 0, none, [2]⟩,
          ⟨2, PStatus.Zombie, 5, some 1, []⟩], 3⟩) :=
  waitpid_copyout_fault
    ⟨[⟨1, PStatus.Alive, 0, none, [2]⟩, ⟨2, PStatus.Zombie, 5, some 1, []⟩], 3⟩
    1 2 6 ⟨1, PStatus.Alive, 0, none, [2]⟩ ⟨2, PStatus.Zombie, 5, some 1, []⟩
    (by decide) (by decide) (by decide) (by decide)

/-- C2 (code bug): `sys_waitpid` neither destroys the reaped child's
record nor removes it from the caller's `children` array (the source
contains no `array_remove`/`proc_destroy` after consuming the status),
so the kernel state is unchanged and a second `waitpid` on the same
pid succeeds again with the same encoded status instead of failing
`ESRCH`.  Concretely: parent `1` reaps zombie child `2` (exit code
`5`, encoding `20`) twice. -/
theorem waitpid_second_call_succeeds_bug :
    sys_waitpid ⟨[⟨1, PStatus.Alive, 0, none, [2]⟩,
        ⟨2, PStatus.Zombie, 5, some 1, []⟩], 3⟩ 1 2 0 none =
      (⟨0, some 2, some 20, false⟩,
        ⟨[⟨1, PStatus.Alive, 0, none, [2]⟩,
          ⟨2, PStatus.Zombie, 5, some 1, []⟩], 3⟩) ∧
    sys_waitpid
        (sys_waitpid ⟨[⟨1, PStatus.Alive, 0, none, [2]⟩,
            ⟨2, PStatus.Zombie, 5, some 1, []⟩], 3⟩ 1 2 0 none).2
        1 2 0 none =
      (⟨0, some 2, some 20, false⟩,
        ⟨[⟨1, PStatus.Alive, 0, none, [2]⟩,
          ⟨2, PStatus.Zombie, 5, some 1, []⟩], 3⟩) ∧
    (sys_waitpid
        (sys_waitpid ⟨[⟨1, PStatus.Alive, 0, none, [2]⟩,
            ⟨2, PStatus.Zombie, 5, some 1, []⟩], 3⟩ 1 2 0 none).2
        1 2 0 none).1.err ≠ ESRCH := by
  refine ⟨by decide, by decide, by decide⟩

/-- C3 (code bug): when `as_copy` fails inside `sys_fork`, the source
destroys the child record (`proc_destroy`) but never removes the
already-registered entry from the caller's `children` array, so the
call reports `ENOMEM` while the parent is left holding a dangling
child entry: pid `2` remains in the children list of process `1`
although no record for pid `2` exists any more. -/
theorem fork_ascopy_fail_leaves_dangling_child_bug :
    (sys_fork ⟨[⟨1, PStatus.Alive, 0, none, []⟩], 2⟩ 1 ⟨false, false, true, false⟩).1 =
        Except.error ENOMEM ∧
    lookupProc (sys_fork ⟨[⟨1, PStatus.Alive, 0, none, []⟩], 2⟩ 1
        ⟨false, false, true, false⟩).2 1 =
      some ⟨1, PStatus.Alive, 0, none, [2]⟩ ∧
    lookupProc (sys_fork ⟨[⟨1, PStatus.Alive, 0, none, []⟩], 2⟩ 1
        ⟨false, false, true, false⟩).2 2 = none := by
  refine ⟨rfl, by decide, by decide⟩

/-- C4: the exit decision rule.  For an exiting process `p` whose
record exists: with no parent, or with a parent whose status is
`Zombie`, the record is destroyed immediately (and is gone from
lookup); with a live parent, the effect is the
zombify-and-broadcast — the record persists, now `Zombie` and
carrying the exit code. -/
theorem exit_decision_rule (κ : Kernel) (p : Nat) (c : Int) (pr : Proc)
    (hp : lookupProc κ p = some pr) :
    (pr.parent = none →
      sys__exit κ p c = (removeProc κ p, ExitEffect.destroyed) ∧
      lookupProc (sys__exit κ p c).1 p = none) ∧
    (∀ pp ppr, pr.parent = some pp → lookupProc κ pp = some ppr →
      ppr.status = PStatus.Zombie →
      sys__exit κ p c = (removeProc κ p, ExitEffect.destroyed) ∧
      lookupProc (sys__exit κ p c).1 p = none) ∧
    (∀ pp ppr, pr.parent = some pp → lookupProc κ pp = some ppr →
      ppr.status = PStatus.Alive →
      (sys__exit κ p c).2 = ExitEffect.zombifiedBroadcast ∧
      lookupProc (sys__exit κ p c).1 p =
        some { pr with status := PStatus.Zombie, exitcode := c }) := by
  refine ⟨?_, ?_, ?_⟩
  · intro hn
    have hz : sys__exit κ p c = (removeProc κ p, ExitEffect.destroyed) := by
      simp [sys__exit, hp, hn]
    exact ⟨hz, by rw [hz]; exact lookupProc_removeProc_self κ p⟩
  · intro pp ppr hpp hppr hst
    have hz : sys__exit κ p c = (removeProc κ p, ExitEffect.destroyed) := by
      simp [sys__exit, hp, hpp, hppr, hst]
    exact ⟨hz, by rw [hz]; exact lookupProc_removeProc_self κ p⟩
  · intro pp ppr hpp hppr hst
    have hz : sys__exit κ p c =
        (mapProc κ p (fun q => { q with status := PStatus.Zombie, exitcode := c }),
          ExitEffect.zombifiedBroadcast) := by
      simp [sys__exit, hp, hpp, hppr, hst,
        show (PStatus.Alive == PStatus.Zombie) = false from rfl]
    refine ⟨by rw [hz], ?_⟩
    rw [hz]
    rw [show ((mapProc κ p fun q =>
        { q with status := PStatus.Zombie, exitcode := c }),
        ExitEffect.zombifiedBroadcast).1 =
      mapProc κ p (fun q => { q with status := PStatus.Zombie, exitcode := c }) from rfl]
    rw [lookupProc_mapProc_self κ p
      (fun q => { q with status := PStatus.Zombie, exitcode := c }) (fun q => rfl), hp]
    rfl

/-- Witness for C4 at three concrete states: an orphan record is
destroyed on exit; a record whose parent is already a zombie is
destroyed on exit; a record with a live parent becomes a zombie
carrying the exit code, with a broadcast, and persists. -/
theorem exit_decision_rule_witness :
    (sys__exit ⟨[⟨4, PStatus.Alive, 0, none, []⟩], 5⟩ 4 7 =
        (removeProc ⟨[⟨4, PStatus.Alive, 0, none, []⟩], 5⟩ 4, ExitEffect.destroyed) ∧
      lookupProc (sys__exit ⟨[⟨4, PStatus.Alive, 0, none, []⟩], 5⟩ 4 7).1 4 = none) ∧
    (sys__exit ⟨[⟨1, PStatus.Zombie, 9, none, [2]⟩,
          ⟨2, PStatus.Alive, 0, some 1, []⟩], 3⟩ 2 7 =
        (removeProc ⟨[⟨1, PStatus.Zombie, 9, none, [2]⟩,
            ⟨2, PStatus.Alive, 0, some 1, []⟩], 3⟩ 2, ExitEffect.destroyed) ∧
      lookupProc (sys__exit ⟨[⟨1, PStatus.Zombie, 9, none, [2]⟩,
          ⟨2, PStatus.Alive, 0, some 1, []⟩], 3⟩ 2 7).1 2 = none) ∧
    ((sys__exit ⟨[⟨1, PStatus.Alive, 0, none, [2]⟩,
          ⟨2, PStatus.Alive, 0, some 1, []⟩], 3⟩ 2 7).2 =
        ExitEffect.zombifiedBroadcast ∧
      lookupProc (sys__exit ⟨[⟨1, PStatus.Alive, 0, none, [2]⟩,
          ⟨2, PStatus.Alive, 0, some 1, []⟩], 3⟩ 2 7).1 2 =
        some ⟨2, PStatus.Zombie, 7, some 1, []⟩) :=
  ⟨(exit_decision_rule ⟨[⟨4, PStatus.Alive, 0, none, []⟩], 5⟩ 4 7
      ⟨4, PStatus.Alive, 0, none, []⟩ (by decide)).1 rfl,
   (exit_decision_rule ⟨[⟨1, PStatus.Zombie, 9, none, [2]⟩,
        ⟨2, PStatus.Alive, 0, some 1, []⟩], 3⟩ 2 7
      ⟨2, PStatus.Alive, 0, some 1, []⟩ (by decide)).2.1 1
      ⟨1, PStatus.Zombie, 9, none, [2]⟩ rfl (by decide) rfl,
   (exit_decision_rule ⟨[⟨1, PStatus.Alive, 0, none, [2]⟩,
        ⟨2, PStatus.Alive, 0, some 1, []⟩], 3⟩ 2 7
      ⟨2, PStatus.Alive, 0, some 1, []⟩ (by decide)).2.2 1
      ⟨1, PStatus.Alive, 0, none, [2]⟩ rfl (by decide) rfl⟩

/-!
Claims about the parent/child wakeup handshake.
-/

/-- C5 (code bug): the waiter's check-and-sleep holds the parent's
lock, but the exiting child's set-and-broadcast holds only the child's
own lock, so the two sides do NOT serialize on one lock and the
broadcast can land between the waiter's status check and its sleep.
In the concrete schedule `lostWakeupSched` the parent checks the
still-`Alive` child, the entire set-and-broadcast of the exiting
child then runs to completion (the broadcast finds no sleeper), the
parent goes to sleep — and the resulting state is a fixpoint of both
threads' step functions: the parent sleeps forever. -/
theorem exit_broadcast_lost_wakeup_bug :
    runCv 5 lostWakeupSched cvInit =
      ⟨WLoc.sleeping, ELoc.done, PStatus.Zombie, 5, true, true, none⟩ ∧
    stepW (runCv 5 lostWakeupSched cvInit) = runCv 5 lostWakeupSched cvInit ∧
    stepE 5 (runCv 5 lostWakeupSched cvInit) = runCv 5 lostWakeupSched cvInit := by
  refine ⟨by decide, by decide, by decide⟩

/-- C1 counterexample: a first `waitpid` on a child that exits with
code `5` concurrently with the call can fail the claim in two ways.
Under `lostWakeupSched` the waiter has returned nothing
(`wRet = none`), is asleep, and the state is a fixpoint of both step
functions, so no continuation of the schedule ever delivers the
claimed return values.  Under `tornReadSched` the waiter's check runs
between the exiting child's two stores: it sees `Zombie`, reads the
not-yet-written exit code, and returns the stale encoding `0` instead
of `_MKWAIT_EXIT(5) = 20`. -/
theorem waitpid_concurrent_exit_counterexample :
    ((runCv 5 lostWakeupSched cvInit).wRet = none ∧
      (runCv 5 lostWakeupSched cvInit).wloc = WLoc.sleeping ∧
      stepW (runCv 5 lostWakeupSched cvInit) = runCv 5 lostWakeupSched cvInit ∧
      stepE 5 (runCv 5 lostWakeupSched cvInit) = runCv 5 lostWakeupSched cvInit) ∧
    ((runCv 5 tornReadSched cvInit).wloc = WLoc.done ∧
      (runCv 5 tornReadSched cvInit).wRet = some 0 ∧
      (runCv 5 tornReadSched cvInit).wRet ≠ some (MKWAIT_EXIT 5)) := by
  refine ⟨⟨by decide, by decide, by decide, by decide⟩, by decide, by decide, by decide⟩

/-- C1 (amended): a first `waitpid(C)` by the parent on a child that
exited with code `c` BEFORE the call returns without blocking,
yielding the child's pid and writing `_MKWAIT_EXIT(c)` to the status
location.  No guarantee holds for a child exiting after the call
began waiting: the call can sleep forever (lost wakeup), and when it
does return it can return the encoding of a stale exit code read
between the exit path's `status` store and `exitcode` store. -/
theorem waitpid_returns_child_status (κ : Kernel) (caller pid : Nat) (c : Int)
    (P C : Proc) (hP : lookupProc κ caller = some P) (hmem : pid ∈ P.children)
    (hC : lookupProc κ pid = some C) (hz : C.status = PStatus.Zombie)
    (hcode : C.exitcode = c) :
    sys_waitpid κ caller pid 0 none =
      (⟨0, some (pid : Int), some (MKWAIT_EXIT c), false⟩, κ) := by
  have hfc := findChild_some_of_mem hmem hC
  simp [sys_waitpid, hP, hfc, hz, hcode]

/-- Witness for C1 (amended): parent `1` reaps already-exited child
`2` (exit code `5`) without blocking, receiving pid `2` and status
`20`. -/
theorem waitpid_returns_child_status_witness :
    sys_waitpid ⟨[⟨1, PStatus.Alive, 0, none, [2]⟩,
        ⟨2, PStatus.Zombie, 5, some 1, []⟩], 3⟩ 1 2 0 none =
      (⟨0, some 2, some (MKWAIT_EXIT 5), false⟩,
        ⟨[⟨1, PStatus.Alive, 0, none, [2]⟩,
          ⟨2, PStatus.Zombie, 5, some 1, []⟩], 3⟩) :=
  waitpid_returns_child_status
    ⟨[⟨1, PStatus.Alive, 0, none, [2]⟩, ⟨2, PStatus.Zombie, 5, some 1, []⟩], 3⟩
    1 2 5 ⟨1, PStatus.Alive, 0, none, [2]⟩ ⟨2, PStatus.Zombie, 5, some 1, []⟩
    (by decide) (by decide) (by decide) (by decide) (by decide)

/-!
Byte-level lemmas about the user-memory writes of the exec stack
construction.
-/

/-- Bytes below the written run are untouched. -/
theorem writeBytes_lt (x : Nat) :
    ∀ (l : List Nat) (m : Mem) (a : Nat), x < a → writeBytes m a l x = m x := by
  intro l
  induction l with
  | nil => intro m a _; rfl
  | cons b rest ih =>
    intro m a hx
    show writeBytes (mupd m a b) (a + 1) rest x = m x
    rw [ih (mupd m a b) (a + 1) (by omega)]
    unfold mupd
    rw [if_neg (by omega)]

/-- Bytes at or above the end of the written run are untouched. -/
theorem writeBytes_ge (x : Nat) :
    ∀ (l : List Nat) (m : Mem) (a : Nat), a + l.length ≤ x → writeBytes m a l x = m x := by
  intro l
  induction l with
  | nil => intro m a _; rfl
  | cons b rest ih =>
    intro m a hx
    show writeBytes (mupd m a b) (a + 1) rest x = m x
    rw [ih (mupd m a b) (a + 1) (by simp at hx; omega)]
    unfold mupd
    rw [if_neg (by simp at hx; omega)]

/-- The written run reads back byte for byte. -/
theorem writeBytes_get :
    ∀ (l : List Nat) (m : Mem) (a i : Nat), i < l.length →
      writeBytes m a l (a + i) = l.getD i 0 := by
  intro l
  induction l with
  | nil => intro m a i hi; cases hi
  | cons b rest ih =>
    intro m a i hi
    cases i with
    | zero =>
      show writeBytes (mupd m a b) (a + 1) rest (a + 0) = b
      rw [writeBytes_lt (a + 0) rest (mupd m a b) (a + 1) (by omega)]
      unfold mupd
      rw [if_pos (by omega)]
    | succ j =>
      show writeBytes (mupd m a b) (a + 1) rest (a + (j + 1)) = rest.getD j 0
      rw [show a + (j + 1) = (a + 1) + j by omega]
      exact ih (mupd m a b) (a + 1) j (by simp at hi; omega)

/-- A `copyoutstr` leaves behind exactly the string's bytes and its
terminating zero. -/
theorem memHasStr_writeStr (m : Mem) (a : Nat) (s : List Nat) :
    memHasStr (writeStr m a s) a s := by
  constructor
  · intro i hi
    unfold writeStr
    rw [writeBytes_get (s ++ [0]) m a i (by simp; omega)]
    rw [List.getD_append _ _ _ _ hi]
  · unfold writeStr
    rw [writeBytes_get (s ++ [0]) m a s.length (by simp)]
    simp [List.getD_append_right]

/-- Holding a string at a location is stable under memory changes
outside the string's bytes. -/
theorem memHasStr_mono (m m' : Mem) (a : Nat) (s : List Nat)
    (hagree : ∀ x, a ≤ x → x ≤ a + s.length → m' x = m x)
    (h : memHasStr m a s) : memHasStr m' a s := by
  obtain ⟨h1, h2⟩ := h
  constructor
  · intro i hi
    rw [hagree (a + i) (by omega) (by omega)]
    exact h1 i hi
  · rw [hagree (a + s.length) (by omega) (by omega)]
    exact h2

/-- Reading a zero-terminated string back recovers exactly the bytes
written, provided none of them is zero and the fuel covers the
length. -/
theorem readCStr_of_memHasStr :
    ∀ (s : List Nat) (m : Mem) (a fuel : Nat), memHasStr m a s →
      (∀ b ∈ s, 0 < b) → s.length < fuel → readCStr m a fuel = s := by
  intro s
  induction s with
  | nil =>
    intro m a fuel h _ hfuel
    cases fuel with
    | zero => cases hfuel
    | succ f =>
      have h0 : m a = 0 := by
        have := h.2
        simpa using this
      simp [readCStr, h0]
  | cons b rest ih =>
    intro m a fuel h hpos hfuel
    cases fuel with
    | zero => cases hfuel
    | succ f =>
      have hb : m a = b := by
        have := h.1 0 (by simp)
        simpa using this
      have hbpos : 0 < b := hpos b (by simp)
      have hrest : memHasStr m (a + 1) rest := by
        constructor
        · intro i hi
          have := h.1 (i + 1) (by simp; omega)
          rw [show a + (i + 1) = a + 1 + i by omega] at this
          simpa using this
        · have := h.2
          rw [show a + (b :: rest).length = a + 1 + rest.length by simp; omega] at this
          exact this
      rw [readCStr, hb, if_neg (by omega)]
      rw [ih m (a + 1) f hrest (fun x hx => hpos x (by simp [hx])) (by simp at hfuel; omega)]

/-- A 32-bit value written as four little-endian bytes reads back as
itself. -/
theorem readWord_writeWord (m : Mem) (a v : Nat) (hv : v < 4294967296) :
    readWord (writeWord m a v) a = v := by
  unfold readWord writeWord
  rw [show a = a + 0 from by omega]
  rw [writeBytes_get _ m (a + 0) 0 (by simp)]
  rw [show a + 0 + 1 = (a + 0) + 1 from rfl]
  rw [writeBytes_get _ m (a + 0) 1 (by simp)]
  rw [show a + 0 + 2 = (a + 0) + 2 from rfl]
  rw [writeBytes_get _ m (a + 0) 2 (by simp)]
  rw [show a + 0 + 3 = (a + 0) + 3 from rfl]
  rw [writeBytes_get _ m (a + 0) 3 (by simp)]
  simp only [List.getD]
  simp
  omega

/-- A word write touches only its four bytes. -/
theorem writeWord_out (m : Mem) (a v x : Nat) (h : x < a ∨ a + 4 ≤ x) :
    writeWord m a v x = m x := by
  cases h with
  | inl h => exact writeBytes_lt x _ m a h
  | inr h => exact writeBytes_ge x _ m a (by simpa using h)

/-- The pointer-vector loop touches only the vector's own bytes
(`4` per entry plus `4` for the terminator). -/
theorem writePtrs_out :
    ∀ (ps : List Nat) (m : Mem) (a x : Nat),
      x < a ∨ a + 4 * ps.length + 4 ≤ x → writePtrs m a ps x = m x := by
  intro ps
  induction ps with
  | nil =>
    intro m a x h
    exact writeWord_out m a 0 x (by simpa using h)
  | cons p rest ih =>
    intro m a x h
    show writePtrs (writeWord m a p) (a + 4) rest x = m x
    rw [ih (writeWord m a p) (a + 4) x (by simp at h ⊢; omega)]
    exact writeWord_out m a p x (by omega)

/-- A word read depends only on its four bytes. -/
theorem readWord_congr (m m' : Mem) (a : Nat)
    (h0 : m' a = m a) (h1 : m' (a + 1) = m (a + 1))
    (h2 : m' (a + 2) = m (a + 2)) (h3 : m' (a + 3) = m (a + 3)) :
    readWord m' a = readWord m a := by
  unfold readWord
  rw [h0, h1, h2, h3]

/-- Entry `i` of the written pointer vector reads back as the `i`-th
recorded address. -/
theorem readWord_writePtrs_at :
    ∀ (ps : List Nat) (m : Mem) (a i : Nat), i < ps.length →
      ps.getD i 0 < 4294967296 →
      readWord (writePtrs m a ps) (a + 4 * i) = ps.getD i 0 := by
  intro ps
  induction ps with
  | nil => intro m a i hi; cases hi
  | cons p rest ih =>
    intro m a i hi hv
    cases i with
    | zero =>
      show readWord (writePtrs (writeWord m a p) (a + 4) rest) (a + 4 * 0) = p
      rw [show a + 4 * 0 = a from by omega]
      have h0 := writePtrs_out rest (writeWord m a p) (a + 4) a (Or.inl (by omega))
      have h1 := writePtrs_out rest (writeWord m a p) (a + 4) (a + 1) (Or.inl (by omega))
      have h2 := writePtrs_out rest (writeWord m a p) (a + 4) (a + 2) (Or.inl (by omega))
      have h3 := writePtrs_out rest (writeWord m a p) (a + 4) (a + 3) (Or.inl (by omega))
      rw [readWord_congr (writeWord m a p) _ a h0 h1 h2 h3]
      exact readWord_writeWord m a p (by simpa using hv)
    | succ j =>
      show readWord (writePtrs (writeWord m a p) (a + 4) rest) (a + 4 * (j + 1)) =
        rest.getD j 0
      rw [show a + 4 * (j + 1) = (a + 4) + 4 * j by omega]
      exact ih (writeWord m a p) (a + 4) j (by simp at hi; omega) (by simpa using hv)

/-- The slot after the last entry of the written pointer vector reads
back as the `NULL` terminator. -/
theorem readWord_writePtrs_term :
    ∀ (ps : List Nat) (m : Mem) (a : Nat),
      readWord (writePtrs m a ps) (a + 4 * ps.length) = 0 := by
  intro ps
  induction ps with
  | nil =>
    intro m a
    rw [show a + 4 * ([] : List Nat).length = a from by simp]
    exact readWord_writeWord m a 0 (by omega)
  | cons p rest ih =>
    intro m a
    rw [show a + 4 * (p :: rest).length = (a + 4) + 4 * rest.length from by simp; omega]
    exact ih (writeWord m a p) (a + 4)

/-- Complete characterisation of the argument-string loop: the final
stack top sits exactly `totalSize args` below the initial one; one
address is recorded per argument; memory below the final top and at or
above the initial top is untouched; every recorded address lies in the
written window, holds its argument string, and the strings sit
back-to-back in argument order from the initial top downwards. -/
theorem pushArgs_spec :
    ∀ (args : List (List Nat)) (m : Mem) (top : Nat), totalSize args ≤ top →
      (pushArgs m top args).2.1 = top - totalSize args ∧
      (pushArgs m top args).2.2.length = args.length ∧
      (∀ x, x < (pushArgs m top args).2.1 → (pushArgs m top args).1 x = m x) ∧
      (∀ x, top ≤ x → (pushArgs m top args).1 x = m x) ∧
      (∀ i, i < args.length →
        (pushArgs m top args).2.1 ≤ (pushArgs m top args).2.2.getD i 0 ∧
        (pushArgs m top args).2.2.getD i 0 + (args.getD i []).length < top ∧
        memHasStr (pushArgs m top args).1 ((pushArgs m top args).2.2.getD i 0)
          (args.getD i [])) ∧
      (∀ i, i + 1 < args.length →
        (pushArgs m top args).2.2.getD (i + 1) 0 + ((args.getD (i + 1) []).length + 1) =
          (pushArgs m top args).2.2.getD i 0) ∧
      (0 < args.length →
        (pushArgs m top args).2.2.getD 0 0 + ((args.getD 0 []).length + 1) = top) := by
  intro args
  induction args with
  | nil =>
    intro m top _
    refine ⟨by simp [pushArgs, totalSize], by simp [pushArgs], ?_, ?_, ?_, ?_, ?_⟩
    · intro x _; rfl
    · intro x _; rfl
    · intro i hi; simp at hi
    · intro i hi; simp at hi
    · intro h; simp at h
  | cons s rest ih =>
    intro m top htop
    have hts : totalSize (s :: rest) = s.length + 1 + totalSize rest := rfl
    rw [hts] at htop
    have hrest_le : totalSize rest ≤ top - (s.length + 1) := by omega
    have haeq : (top - (s.length + 1)) + (s.length + 1) = top := by omega
    obtain ⟨ih1, ih2, ih3, ih4, ih5, ih6, ih7⟩ :=
      ih (writeStr m (top - (s.length + 1)) s) (top - (s.length + 1)) hrest_le
    have hunf : pushArgs m top (s :: rest) =
        ((pushArgs (writeStr m (top - (s.length + 1)) s) (top - (s.length + 1)) rest).1,
         (pushArgs (writeStr m (top - (s.length + 1)) s) (top - (s.length + 1)) rest).2.1,
         (top - (s.length + 1)) ::
           (pushArgs (writeStr m (top - (s.length + 1)) s) (top - (s.length + 1)) rest).2.2) :=
      rfl
    rw [hunf]
    refine ⟨?_, ?_, ?_, ?_, ?_, ?_, ?_⟩
    · show (pushArgs _ _ rest).2.1 = top - totalSize (s :: rest)
      rw [ih1, hts]
      omega
    · show ((top - (s.length + 1)) :: _).length = (s :: rest).length
      simp [ih2]
    · intro x hx
      rw [ih3 x hx]
      rw [ih1] at hx
      unfold writeStr
      exact writeBytes_lt x (s ++ [0]) m (top - (s.length + 1)) (by omega)
    · intro x hx
      rw [ih4 x (by omega)]
      unfold writeStr
      exact writeBytes_ge x (s ++ [0]) m (top - (s.length + 1)) (by simp; omega)
    · intro i hi
      cases i with
      | zero =>
        simp only [List.getD_cons_zero]
        refine ⟨by rw [ih1]; omega, by omega, ?_⟩
        refine memHasStr_mono _ _ _ s (fun x hx _ => ih4 x hx) ?_
        exact memHasStr_writeStr m (top - (s.length + 1)) s
      | succ j =>
        have hj : j < rest.length := by simp at hi; omega
        obtain ⟨h1, h2, h3⟩ := ih5 j hj
        simp only [List.getD_cons_succ]
        exact ⟨h1, by omega, h3⟩
    · intro i hi
      cases i with
      | zero =>
        simp only [List.getD_cons_succ, List.getD_cons_zero]
        exact ih7 (by simp at hi; omega)
      | succ j =>
        simp only [List.getD_cons_succ]
        exact ih6 j (by simp at hi; omega)
    · intro _
      simp only [List.getD_cons_zero]
      exact haeq

/-- C6 (amended): on a successful exec the user stack is built
top-down — the argument strings are pushed first, in order,
back-to-back below the initial stack pointer; the pointer-vector base
is the value the source computes (`ROUNDUP(strTop, 8) - 16` minus
`8 * ROUNDUP(argc + 2, 2)` bytes), which is 8-byte aligned; the
vector's `argc` entries read back as the addresses of the argument
strings, each of which reads back as the corresponding argument; the
vector is terminated by a `NULL` word; and program entry receives the
argument count and the vector address (also used as the stack
pointer). -/
theorem execv_stack_layout (m : Mem) (sp : Nat) (args : List (List Nat))
    (hgood : GoodArgs args)
    (hroom : totalSize args + 16 + 8 * ROUNDUP (args.length + 2) 2 ≤ sp)
    (hsp : sp < 4294967296) :
    (buildStack m sp args).argc = args.length ∧
    (buildStack m sp args).stackPtr = (buildStack m sp args).argvBase ∧
    (buildStack m sp args).argvBase =
      ROUNDUP ((pushArgs m sp args).2.1) 8 - 16 - 8 * ROUNDUP (args.length + 2) 2 ∧
    (buildStack m sp args).argvBase % 8 = 0 ∧
    readWord (buildStack m sp args).mem
      ((buildStack m sp args).argvBase + 4 * args.length) = 0 ∧
    (∀ i, i < args.length →
      readWord (buildStack m sp args).mem ((buildStack m sp args).argvBase + 4 * i) =
        (pushArgs m sp args).2.2.getD i 0 ∧
      readCStr (buildStack m sp args).mem ((pushArgs m sp args).2.2.getD i 0) 128 =
        args.getD i []) ∧
    (0 < args.length →
      (pushArgs m sp args).2.2.getD 0 0 + ((args.getD 0 []).length + 1) = sp) ∧
    (∀ i, i + 1 < args.length →
      (pushArgs m sp args).2.2.getD (i + 1) 0 + ((args.getD (i + 1) []).length + 1) =
        (pushArgs m sp args).2.2.getD i 0) := by
  obtain ⟨hfin, hlen, hbelow, habove, hstrs, hchain, hfirst⟩ :=
    pushArgs_spec args m sp (by omega)
  have hR : args.length + 2 ≤ ROUNDUP (args.length + 2) 2 ∧
      ROUNDUP (args.length + 2) 2 ≤ args.length + 3 := by
    unfold ROUNDUP
    omega
  have h8 : (pushArgs m sp args).2.1 ≤ ROUNDUP ((pushArgs m sp args).2.1) 8 ∧
      ROUNDUP ((pushArgs m sp args).2.1) 8 ≤ (pushArgs m sp args).2.1 + 7 ∧
      ROUNDUP ((pushArgs m sp args).2.1) 8 % 8 = 0 := by
    unfold ROUNDUP
    omega
  have hfin_ge : 16 + 8 * ROUNDUP (args.length + 2) 2 ≤ (pushArgs m sp args).2.1 := by
    rw [hfin]
    omega
  have hbase : (buildStack m sp args).argvBase =
      ROUNDUP ((pushArgs m sp args).2.1) 8 - 16 - 8 * ROUNDUP (args.length + 2) 2 := rfl
  have hmem2 : (buildStack m sp args).mem =
      writePtrs (pushArgs m sp args).1 (buildStack m sp args).argvBase
        (pushArgs m sp args).2.2 := rfl
  have hfit : (buildStack m sp args).argvBase + 4 * args.length + 4 ≤
      (pushArgs m sp args).2.1 := by
    rw [hbase]
    omega
  refine ⟨rfl, rfl, hbase, ?_, ?_, ?_, hfirst, hchain⟩
  · rw [hbase]
    omega
  · rw [hmem2]
    have := readWord_writePtrs_term (pushArgs m sp args).2.2 (pushArgs m sp args).1
      (buildStack m sp args).argvBase
    rw [hlen] at this
    exact this
  · intro i hi
    have hilen : i < (pushArgs m sp args).2.2.length := by rw [hlen]; exact hi
    obtain ⟨hge, hlt, hhas⟩ := hstrs i hi
    constructor
    · rw [hmem2]
      exact readWord_writePtrs_at (pushArgs m sp args).2.2 (pushArgs m sp args).1
        (buildStack m sp args).argvBase i hilen (by omega)
    · have hsmem : args.getD i [] ∈ args := by
        rw [List.getD_eq_getElem args [] hi]
        exact List.getElem_mem hi
      obtain ⟨hslen, hsbytes⟩ := hgood (args.getD i []) hsmem
      have hhas2 : memHasStr (buildStack m sp args).mem
          ((pushArgs m sp args).2.2.getD i 0) (args.getD i []) := by
        rw [hmem2]
        refine memHasStr_mono _ _ _ _ ?_ hhas
        intro x hx1 hx2
        refine writePtrs_out (pushArgs m sp args).2.2 (pushArgs m sp args).1
          (buildStack m sp args).argvBase x (Or.inr ?_)
        rw [hlen]
        omega
      exact readCStr_of_memHasStr (args.getD i []) (buildStack m sp args).mem
        ((pushArgs m sp args).2.2.getD i 0) 128 hhas2
        (fun b hb => (hsbytes b hb).1) (by omega)

/-- Witness for C6 (amended) on the spec's concrete scenario
`exec("/bin/prog", ["/bin/prog", "arg1", NULL])` with the stack top at
`8388608`: entry receives argument count `2` and the vector address as
stack pointer; the base is 8-aligned; entry `0` of the vector holds
the address of the first string; both strings read back intact; the
slot after the two entries holds `NULL`. -/
theorem execv_stack_layout_witness :
    GoodArgs demoArgs ∧
    (buildStack mem0 8388608 demoArgs).argc = 2 ∧
    (buildStack mem0 8388608 demoArgs).stackPtr =
      (buildStack mem0 8388608 demoArgs).argvBase ∧
    (buildStack mem0 8388608 demoArgs).argvBase % 8 = 0 ∧
    readWord (buildStack mem0 8388608 demoArgs).mem
      ((buildStack mem0 8388608 demoArgs).argvBase + 4 * 2) = 0 ∧
    readWord (buildStack mem0 8388608 demoArgs).mem
      ((buildStack mem0 8388608 demoArgs).argvBase + 4 * 0) =
      (pushArgs mem0 8388608 demoArgs).2.2.getD 0 0 ∧
    readCStr (buildStack mem0 8388608 demoArgs).mem
      ((pushArgs mem0 8388608 demoArgs).2.2.getD 0 0) 128 = demoArgs.getD 0 [] ∧
    readCStr (buildStack mem0 8388608 demoArgs).mem
      ((pushArgs mem0 8388608 demoArgs).2.2.getD 1 0) 128 = demoArgs.getD 1 [] := by
  have h := execv_stack_layout mem0 8388608 demoArgs (by unfold GoodArgs; decide)
    (by decide) (by decide)
  exact ⟨by unfold GoodArgs; decide, h.1, h.2.1, h.2.2.2.1, h.2.2.2.2.1,
    (h.2.2.2.2.2.1 0 (by decide)).1, (h.2.2.2.2.2.1 0 (by decide)).2,
    (h.2.2.2.2.2.1 1 (by decide)).2⟩

/-- C6 counterexample: the source's pointer-vector base is NOT the
base the specification's words describe.  On the spec's own concrete
scenario (two arguments, stack top `8388608`, string area ending at
`8388593`) the source computes base `8388552`
(`ROUNDUP(·,8) - 16 - 8 * ROUNDUP(argc+2, 2)`), whereas rounding the
string-area bottom DOWN to 8-byte alignment and reserving `argc + 1`
pointer slots padded to an even count gives `8388576` with 4-byte
slots and `8388560` with 8-byte slots — neither matches. -/
theorem execv_vector_base_differs_from_spec_words :
    (buildStack mem0 8388608 demoArgs).argvBase = 8388552 ∧
    specVectorBase ((pushArgs mem0 8388608 demoArgs).2.1) demoArgs.length = 8388576 ∧
    specVectorBase8 ((pushArgs mem0 8388608 demoArgs).2.1) demoArgs.length = 8388560 ∧
    (buildStack mem0 8388608 demoArgs).argvBase ≠
      specVectorBase ((pushArgs mem0 8388608 demoArgs).2.1) demoArgs.length ∧
    (buildStack mem0 8388608 demoArgs).argvBase ≠
      specVectorBase8 ((pushArgs mem0 8388608 demoArgs).2.1) demoArgs.length := by
  refine ⟨by decide, by decide, by decide, by decide, by decide⟩

/-- The argument copy-in loop fails with `ENAMETOOLONG` as soon as the
vector contains a string that does not fit a 128-byte buffer. -/
theorem copyArgs_long :
    ∀ args : List (List Nat), (∃ a ∈ args, 128 < a.length + 1) →
      copyArgs args = Except.error ENAMETOOLONG := by
  intro args
  induction args with
  | nil =>
    rintro ⟨a, ha, _⟩
    cases ha
  | cons hd tl ih =>
    rintro ⟨a, ha, hlong⟩
    by_cases hh : hd.length + 1 ≤ 128
    · have htl : ∃ b ∈ tl, 128 < b.length + 1 := by
        rcases List.mem_cons.mp ha with h | h
        · subst h; omega
        · exact ⟨a, h, hlong⟩
      simp [copyArgs, copyinstr, hh, ih htl]
    · simp [copyArgs, copyinstr, hh]

/-- C10: when the program path or any argument string (terminator
included) exceeds the 128-byte staging buffer, the copy-in step fails
and `sys_execv` returns `ENAMETOOLONG` before the address-space
replacement stage runs. -/
theorem execv_long_string_fails_before_as_replace
    (prog : List Nat) (args : List (List Nat)) (sp : Nat)
    (h : 128 < prog.length + 1 ∨ ∃ a ∈ args, 128 < a.length + 1) :
    (sys_execv prog args sp).1 = Except.error ENAMETOOLONG ∧
    ExecAction.asReplace ∉ (sys_execv prog args sp).2 := by
  by_cases hp : prog.length + 1 ≤ 128
  · have hargs : ∃ a ∈ args, 128 < a.length + 1 := by
      rcases h with h | h
      · omega
      · exact h
    have hc := copyArgs_long args hargs
    constructor
    · simp [sys_execv, copyinstr, hp, hc]
    · simp [sys_execv, copyinstr, hp, hc]
  · constructor
    · simp [sys_execv, copyinstr, hp]
    · simp [sys_execv, copyinstr, hp]

/-- Witness for C10: a 128-byte path (129 bytes with its terminator)
makes `sys_execv` fail `ENAMETOOLONG` with the address-space
replacement stage never reached. -/
theorem execv_long_string_fails_before_as_replace_witness :
    (128 < (List.replicate 128 1).length + 1 ∨
      ∃ a ∈ ([] : List (List Nat)), 128 < a.length + 1) ∧
    (sys_execv (List.replicate 128 1) [] 8388608).1 = Except.error ENAMETOOLONG ∧
    ExecAction.asReplace ∉ (sys_execv (List.replicate 128 1) [] 8388608).2 :=
  ⟨Or.inl (by simp),
    execv_long_string_fails_before_as_replace (List.replicate 128 1) [] 8388608
      (Or.inl (by simp))⟩
